import Mathlib

/-!
# Verification of `src/raii_wrapper.h` (justjit RAII interop layer)

Shallow embedding of the RAII wrappers and type converters of
`src/src/raii_wrapper.h`.  The foreign runtime (CPython) is modelled by:

* `PyVal` — the shape of a foreign object as far as the converters can
  observe it (integer-like, bool, float-like, string, or a generic object
  with a truth valuation and a buffer-export capability);
* an error flag (`Bool`) threaded through calls that can raise;
* a reference-count ledger `RT` mapping raw pointers to the net
  INCREF/DECREF delta performed by the wrapped operations.

Machine `double`s are modelled by an exact carrier `CDouble := ℚ`: the
wrappers never perform floating-point arithmetic on them other than the
`static_cast<double>` widening of an `int64`, which we embed exactly
(the rounding of integers above 2^53 is outside the scope of the claims).
-/

namespace Justjit

/-- Exact stand-in for the bit-patterns of a C `double`; the code only
stores and retrieves these values, so any faithful carrier works. -/
abbrev CDouble := ℚ

/-- The C widening cast `static_cast<double>(long long)`, embedded exactly. -/
def longAsDouble (n : ℤ) : CDouble := (n : ℚ)

/-- Observable shape of a foreign (Python) object, as far as the converter
functions of `raii_wrapper.h` can distinguish.  `obj truth exportsBuffer`
is any other object: `truth` is the outcome of the runtime's truth-value
query (`none` = the query raises), `exportsBuffer` says whether the object
supports the buffer protocol. -/
inductive PyVal where
  | int (v : ℤ)
  | bool (b : Bool)
  | float (v : CDouble)
  | str (s : String)
  | obj (truth : Option Bool) (exportsBuffer : Bool)
deriving DecidableEq

/-- `PyLong_Check`: true for `int` and its subtype `bool`. -/
def PyLong_Check : PyVal → Bool
  | .int _ => true
  | .bool _ => true
  | _ => false

/-- `PyFloat_Check`: true exactly for float objects. -/
def PyFloat_Check : PyVal → Bool
  | .float _ => true
  | _ => false

def INT64_MIN : ℤ := -(2 ^ 63)

def INT64_MAX : ℤ := 2 ^ 63 - 1

/-- CPython API `PyLong_AsLongLong` (documented behaviour): returns the
value of an integer-like object; on a non-integer-like object it raises
`TypeError` and returns `-1`; out-of-`int64`-range integers raise
`OverflowError` and return `-1`.  Result: `(value, raisesError)`. -/
def PyLong_AsLongLong : PyVal → ℤ × Bool
  | .int v => if INT64_MIN ≤ v ∧ v ≤ INT64_MAX then (v, false) else (-1, true)
  | .bool b => (if b then 1 else 0, false)
  | _ => (-1, true)

/-- CPython API `PyFloat_AsDouble` (documented behaviour): the value of a
float; converts numbers via their float protocol; raises `TypeError` and
returns `-1.0` otherwise.  Result: `(value, raisesError)`. -/
def PyFloat_AsDouble : PyVal → CDouble × Bool
  | .float v => (v, false)
  | .int v => (longAsDouble v, false)
  | .bool b => (longAsDouble (if b then 1 else 0), false)
  | _ => (-1, true)

/-- CPython API `PyUnicode_AsUTF8` (documented behaviour): a borrowed
pointer to the UTF-8 text of a string object; `NULL` (here `none`) with
`TypeError` raised on anything else.  Result: `(text?, raisesError)`. -/
def PyUnicode_AsUTF8 : PyVal → Option String × Bool
  | .str s => (some s, false)
  | _ => (none, true)

/-- CPython API `PyObject_IsTrue` (documented behaviour): `1`/`0` for a
successful truth test, `-1` with an error raised when the test fails.
Result: `(value, raisesError)`. -/
def PyObject_IsTrue : PyVal → ℤ × Bool
  | .int v => (if v = 0 then 0 else 1, false)
  | .bool b => (if b then 1 else 0, false)
  | .float v => (if v = 0 then 0 else 1, false)
  | .str s => (if s.length = 0 then 0 else 1, false)
  | .obj truth _ =>
    match truth with
    | some b => (if b then 1 else 0, false)
    | none => (-1, true)

/-- `py_to_long` from the source: `return PyLong_AsLongLong(obj);`.
The second component of input and output is the runtime error flag. -/
def py_to_long (obj : PyVal) (err : Bool) : ℤ × Bool :=
  let r := PyLong_AsLongLong obj
  (r.1, err || r.2)

/-- `py_to_double` from the source: float values pass through
`PyFloat_AsDouble`, integer-like values are widened via
`static_cast<double>(PyLong_AsLongLong(obj))`, everything else
returns `0.0`. -/
def py_to_double (obj : PyVal) (err : Bool) : CDouble × Bool :=
  if PyFloat_Check obj then
    let r := PyFloat_AsDouble obj
    (r.1, err || r.2)
  else if PyLong_Check obj then
    let r := PyLong_AsLongLong obj
    (longAsDouble r.1, err || r.2)
  else
    (0, err)

/-- `py_to_string` from the source: `return PyUnicode_AsUTF8(obj);`. -/
def py_to_string (obj : PyVal) (err : Bool) : Option String × Bool :=
  let r := PyUnicode_AsUTF8 obj
  (r.1, err || r.2)

/-- `py_to_bool` from the source: `return PyObject_IsTrue(obj) != 0;`. -/
def py_to_bool (obj : PyVal) (err : Bool) : Bool × Bool :=
  let r := PyObject_IsTrue obj
  (decide (r.1 ≠ 0), err || r.2)

/-- `long_to_py` from the source: `PyLong_FromLongLong(val)` — a new
integer object with exactly the given `int64` value. -/
def long_to_py (val : ℤ) : PyVal := .int val

/-- `double_to_py` from the source: `PyFloat_FromDouble(val)` — a new
float object storing the given double exactly. -/
def double_to_py (val : CDouble) : PyVal := .float val

/-- `string_to_py` from the source: `PyUnicode_FromString(val)` — a new
string object with the given text (Lean strings are always valid
Unicode, so the UTF-8 decoding step cannot fail). -/
def string_to_py (val : String) : PyVal := .str val

/-- `bool_to_py` from the source: `PyBool_FromLong(val ? 1 : 0)`. -/
def bool_to_py (val : Bool) : PyVal := .bool val

/-!
## `PyObjectPtr` — reference-count ledger

Raw foreign pointers are `Ptr := Nat`, with `0` standing for `NULL`.
`RT.rc p` is the net delta of the reference count of the object at `p`
produced by the wrapped operations (`Py_XINCREF` / `Py_XDECREF`).

A program manipulating handles is a list of `HOp`s over a growing family
of handles (`HS`), executed by `hstep`.  Besides the count delta, the
state carries `ext p`: the net number of owned references the handle
subsystem has handed back to callers at `p` — `release` returns one to
the caller (`+1`), while `steal` and `reset` consume one owned reference
the caller already held (`-1`).  The ledger invariant ties the three
together.
-/

/-- A raw `PyObject*`; `0` is `NULL`. -/
abbrev Ptr := Nat

/-- Reference-count ledger of the foreign runtime: net INCREF/DECREF
delta per object. -/
structure RT where
  rc : Ptr → ℤ

/-- `Py_XINCREF`: increment the count unless the pointer is `NULL`. -/
def Py_XINCREF (p : Ptr) (rt : RT) : RT :=
  if p = 0 then rt else ⟨fun q => if q = p then rt.rc q + 1 else rt.rc q⟩

/-- `Py_XDECREF`: decrement the count unless the pointer is `NULL`. -/
def Py_XDECREF (p : Ptr) (rt : RT) : RT :=
  if p = 0 then rt else ⟨fun q => if q = p then rt.rc q - 1 else rt.rc q⟩

/-- State of one `PyObjectPtr` slot: a live handle holding `ptr_` (which
may be `0` after `release` or being moved from), or already destructed. -/
inductive HS where
  | live (ptr_ : Ptr)
  | dead
deriving DecidableEq

/-- Operations on `PyObjectPtr` handles.  `steal`/`borrow` create a new
handle (appended to the family); the others act on the handle at the
given index.  `moveCtor src` is `PyObjectPtr h(std::move(hs))`;
`moveAssign src dst` is `hd = std::move(hs)`. -/
inductive HOp where
  | steal (p : Ptr)
  | borrow (p : Ptr)
  | moveCtor (src : Nat)
  | moveAssign (src dst : Nat)
  | release (i : Nat)
  | reset (i : Nat) (p : Ptr)
  | destruct (i : Nat)

/-- State of a handle-manipulating program. -/
structure HMState where
  rt : RT
  ext : Ptr → ℤ
  handles : List HS

/-- Look up a handle slot; indices that were never created read as `dead`
(such operations are no-ops: they do not occur in a well-formed C++
program). -/
def getH (l : List HS) (i : Nat) : HS := l.getD i .dead

/-- Record that one caller-owned reference at `p` was consumed by the
handle subsystem (`steal` / `reset` adopt an existing count). -/
def extTake (ext : Ptr → ℤ) (p : Ptr) : Ptr → ℤ :=
  if p = 0 then ext else fun q => if q = p then ext q - 1 else ext q

/-- Record that one owned reference at `p` was handed back to the caller
(`release`). -/
def extGive (ext : Ptr → ℤ) (p : Ptr) : Ptr → ℤ :=
  if p = 0 then ext else fun q => if q = p then ext q + 1 else ext q

/-- One step of the handle machine; each branch transcribes the
corresponding member of `PyObjectPtr`:
`steal` adopts without INCREF, `borrow` does `Py_XINCREF` then adopts,
the move constructor nulls the source, move assignment (on distinct
objects) XDECREFs the target's old pointer and nulls the source,
`release` only clears the slot, `reset` XDECREFs the old pointer and
stores the new one, and the destructor does `Py_XDECREF(ptr_)`. -/
def hstep (s : HMState) : HOp → HMState
  | .steal p => { s with handles := s.handles ++ [.live p], ext := extTake s.ext p }
  | .borrow p => { s with rt := Py_XINCREF p s.rt, handles := s.handles ++ [.live p] }
  | .moveCtor src =>
    match getH s.handles src with
    | .live p => { s with handles := s.handles.set src (.live 0) ++ [.live p] }
    | .dead => s
  | .moveAssign src dst =>
    if src = dst then s
    else
      match getH s.handles src, getH s.handles dst with
      | .live p, .live q =>
        { s with
          rt := Py_XDECREF q s.rt
          handles := (s.handles.set dst (.live p)).set src (.live 0) }
      | _, _ => s
  | .release i =>
    match getH s.handles i with
    | .live p => { s with handles := s.handles.set i (.live 0), ext := extGive s.ext p }
    | .dead => s
  | .reset i p =>
    match getH s.handles i with
    | .live q =>
      { s with rt := Py_XDECREF q s.rt, handles := s.handles.set i (.live p),
               ext := extTake s.ext p }
    | .dead => s
  | .destruct i =>
    match getH s.handles i with
    | .live p => { s with rt := Py_XDECREF p s.rt, handles := s.handles.set i .dead }
    | .dead => s

/-- Initial state: zero deltas, no handles. -/
def hinit : HMState := ⟨⟨fun _ => 0⟩, fun _ => 0, []⟩

/-- Run a handle program from the initial state. -/
def hrun (ops : List HOp) : HMState := ops.foldl hstep hinit

/-- `1` if this slot is a live handle holding `p`, else `0`. -/
def holds (p : Ptr) : HS → Nat
  | .live q => if q = p then 1 else 0
  | .dead => 0

/-- Number of outstanding handles holding the (non-null) pointer `p`. -/
def countLive (l : List HS) (p : Ptr) : Nat := (l.map (holds p)).sum

/-- The ledger invariant: for every non-null object, the net count delta
equals the number of outstanding owning handles plus the net number of
owned references handed back to callers. -/
def RCInv (s : HMState) : Prop :=
  ∀ p : Ptr, p ≠ 0 → s.rt.rc p = countLive s.handles p + s.ext p

theorem countLive_append (l : List HS) (h : HS) (p : Ptr) :
    countLive (l ++ [h]) p = countLive l p + holds p h := by
  simp [countLive]

theorem getH_live_lt {l : List HS} {i : Nat} {p : Ptr}
    (h : getH l i = .live p) : i < l.length := by
  by_contra hge
  rw [getH, List.getD_eq_default _ _ (Nat.le_of_not_lt hge)] at h
  exact HS.noConfusion h

theorem countLive_set (l : List HS) (i : Nat) (h : HS) (p : Ptr)
    (hi : i < l.length) :
    (countLive (l.set i h) p : ℤ) =
      (countLive l p : ℤ) + holds p h - holds p (getH l i) := by
  induction l generalizing i with
  | nil => exact absurd hi (Nat.not_lt_zero i)
  | cons a t ih =>
    cases i with
    | zero =>
      simp [countLive, getH]
      ring
    | succ n =>
      have hn : n < t.length := Nat.lt_of_succ_lt_succ hi
      have := ih n hn
      simp only [List.set_cons_succ, countLive, List.map_cons, List.sum_cons, getH,
        List.getD_cons_succ] at *
      push_cast at *
      omega

theorem getH_set_ne (l : List HS) (i j : Nat) (h : HS) (hij : i ≠ j) :
    getH (l.set j h) i = getH l i := by
  induction l generalizing i j with
  | nil => simp [getH]
  | cons a t ih =>
    cases j with
    | zero =>
      cases i with
      | zero => exact absurd rfl hij
      | succ n => simp [getH]
    | succ m =>
      cases i with
      | zero => simp [getH]
      | succ n =>
        simp only [List.set_cons_succ, getH, List.getD_cons_succ]
        exact ih n m (fun hh => hij (by rw [hh]))

theorem Py_XINCREF_rc (q x : Ptr) (rt : RT) (hx : x ≠ 0) :
    (Py_XINCREF q rt).rc x = rt.rc x + (if q = x then 1 else 0) := by
  unfold Py_XINCREF
  by_cases hq0 : q = 0
  · subst hq0
    rw [if_pos rfl, if_neg (Ne.symm hx), add_zero]
  · rw [if_neg hq0]
    show (if x = q then rt.rc x + 1 else rt.rc x) = _
    by_cases hxq : x = q
    · rw [if_pos hxq, if_pos hxq.symm]
    · rw [if_neg hxq, if_neg (fun h => hxq h.symm), add_zero]

theorem Py_XDECREF_rc (q x : Ptr) (rt : RT) (hx : x ≠ 0) :
    (Py_XDECREF q rt).rc x = rt.rc x - (if q = x then 1 else 0) := by
  unfold Py_XDECREF
  by_cases hq0 : q = 0
  · subst hq0
    rw [if_pos rfl, if_neg (Ne.symm hx), sub_zero]
  · rw [if_neg hq0]
    show (if x = q then rt.rc x - 1 else rt.rc x) = _
    by_cases hxq : x = q
    · rw [if_pos hxq, if_pos hxq.symm]
    · rw [if_neg hxq, if_neg (fun h => hxq h.symm), sub_zero]

theorem extTake_at (q x : Ptr) (ext : Ptr → ℤ) (hx : x ≠ 0) :
    extTake ext q x = ext x - (if q = x then 1 else 0) := by
  unfold extTake
  by_cases hq0 : q = 0
  · subst hq0
    rw [if_pos rfl, if_neg (Ne.symm hx), sub_zero]
  · rw [if_neg hq0]
    show (if x = q then ext x - 1 else ext x) = _
    by_cases hxq : x = q
    · rw [if_pos hxq, if_pos hxq.symm]
    · rw [if_neg hxq, if_neg (fun h => hxq h.symm), sub_zero]

theorem extGive_at (q x : Ptr) (ext : Ptr → ℤ) (hx : x ≠ 0) :
    extGive ext q x = ext x + (if q = x then 1 else 0) := by
  unfold extGive
  by_cases hq0 : q = 0
  · subst hq0
    rw [if_pos rfl, if_neg (Ne.symm hx), add_zero]
  · rw [if_neg hq0]
    show (if x = q then ext x + 1 else ext x) = _
    by_cases hxq : x = q
    · rw [if_pos hxq, if_pos hxq.symm]
    · rw [if_neg hxq, if_neg (fun h => hxq h.symm), add_zero]

theorem rcinv_step {s : HMState} (inv : RCInv s) (op : HOp) :
    RCInv (hstep s op) := by
  intro p hp
  have invp := inv p hp
  cases op with
  | steal q =>
    simp only [hstep, countLive_append, holds]
    rw [extTake_at q p s.ext hp]
    push_cast
    split_ifs <;> omega
  | borrow q =>
    simp only [hstep, countLive_append, holds]
    rw [Py_XINCREF_rc q p s.rt hp]
    push_cast
    split_ifs <;> omega
  | moveCtor src =>
    cases hsrc : getH s.handles src with
    | dead => simpa [hstep, hsrc] using invp
    | live q =>
      have hlt := getH_live_lt hsrc
      have h1 := countLive_set s.handles src (.live 0) p hlt
      rw [hsrc] at h1
      simp only [holds] at h1
      rw [if_neg (Ne.symm hp)] at h1
      simp only [hstep, hsrc, countLive_append, holds]
      push_cast at h1 ⊢
      split_ifs at * <;> omega
  | moveAssign src dst =>
    by_cases hsd : src = dst
    · simpa [hstep, hsd] using invp
    · cases hsrc : getH s.handles src with
      | dead => simpa [hstep, hsd, hsrc] using invp
      | live q =>
        cases hdst : getH s.handles dst with
        | dead => simpa [hstep, hsd, hsrc, hdst] using invp
        | live r =>
          have hltdst := getH_live_lt hdst
          have h1 := countLive_set s.handles dst (.live q) p hltdst
          rw [hdst] at h1
          have hltsrc' : src < (s.handles.set dst (.live q)).length := by
            simpa using getH_live_lt hsrc
          have h2 := countLive_set (s.handles.set dst (.live q)) src (.live 0) p hltsrc'
          rw [getH_set_ne _ _ _ _ hsd, hsrc] at h2
          simp only [holds] at h1 h2
          rw [if_neg (Ne.symm hp)] at h2
          simp only [hstep]
          rw [if_neg hsd]
          simp only [hsrc, hdst]
          rw [Py_XDECREF_rc r p s.rt hp]
          push_cast at h1 h2 ⊢
          split_ifs at * <;> omega
  | release i =>
    cases hi : getH s.handles i with
    | dead => simpa [hstep, hi] using invp
    | live q =>
      have hlt := getH_live_lt hi
      have h1 := countLive_set s.handles i (.live 0) p hlt
      rw [hi] at h1
      simp only [holds] at h1
      rw [if_neg (Ne.symm hp)] at h1
      simp only [hstep, hi]
      rw [extGive_at q p s.ext hp]
      push_cast at h1 ⊢
      split_ifs at * <;> omega
  | reset i q =>
    cases hi : getH s.handles i with
    | dead => simpa [hstep, hi] using invp
    | live r =>
      have hlt := getH_live_lt hi
      have h1 := countLive_set s.handles i (.live q) p hlt
      rw [hi] at h1
      simp only [holds] at h1
      simp only [hstep, hi]
      rw [Py_XDECREF_rc r p s.rt hp, extTake_at q p s.ext hp]
      push_cast at h1 ⊢
      split_ifs at * <;> omega
  | destruct i =>
    cases hi : getH s.handles i with
    | dead => simpa [hstep, hi] using invp
    | live q =>
      have hlt := getH_live_lt hi
      have h1 := countLive_set s.handles i .dead p hlt
      rw [hi] at h1
      simp only [holds] at h1
      simp only [hstep, hi]
      rw [Py_XDECREF_rc q p s.rt hp]
      push_cast at h1 ⊢
      split_ifs at * <;> omega


theorem rcinv_foldl (ops : List HOp) :
    ∀ s : HMState, RCInv s → RCInv (ops.foldl hstep s) := by
  induction ops with
  | nil => exact fun s h => h
  | cons op rest ih =>
    intro s h
    exact ih (hstep s op) (rcinv_step h op)

theorem rcinv_hinit : RCInv hinit := by
  intro p _
  simp [hinit, countLive]

theorem getH_set_self (l : List HS) (i : Nat) (h : HS) (hi : i < l.length) :
    getH (l.set i h) i = h := by
  induction l generalizing i with
  | nil => exact absurd hi (Nat.not_lt_zero i)
  | cons a t ih =>
    cases i with
    | zero => simp [getH]
    | succ n =>
      simp only [List.set_cons_succ, getH, List.getD_cons_succ]
      exact ih n (Nat.lt_of_succ_lt_succ hi)

theorem getH_append_left (l l' : List HS) (i : Nat) (hi : i < l.length) :
    getH (l ++ l') i = getH l i := by
  induction l generalizing i with
  | nil => exact absurd hi (Nat.not_lt_zero i)
  | cons a t ih =>
    cases i with
    | zero => simp [getH]
    | succ n =>
      simp only [List.cons_append, getH, List.getD_cons_succ]
      exact ih n (Nat.lt_of_succ_lt_succ hi)

/-- **C1.** Over every sequence of steal/borrow/move/release/reset/destruct
operations on `PyObjectPtr` handles, the net reference-count delta on each
non-null object equals the number of outstanding (non-released,
non-moved-from) owning handles plus the owned references handed back to
callers (`release`) or consumed from them (`steal`/`reset`); moreover
`steal` adopts without any INCREF, `borrow` increments the adopted
pointer's count, `release` clears the handle without decrementing, the
destructor decrements exactly when the handle is non-null, and move
construction leaves the source holding null. -/
theorem c1_handle_refcount_ledger :
    (∀ (ops : List HOp) (p : Ptr), p ≠ 0 →
        (hrun ops).rt.rc p = countLive (hrun ops).handles p + (hrun ops).ext p) ∧
    (∀ (s : HMState) (q : Ptr), (hstep s (.steal q)).rt = s.rt) ∧
    (∀ (s : HMState) (q : Ptr), q ≠ 0 →
        (hstep s (.borrow q)).rt.rc q = s.rt.rc q + 1) ∧
    (∀ (s : HMState) (i : Nat) (q : Ptr), getH s.handles i = .live q →
        (hstep s (.release i)).rt = s.rt ∧
        getH (hstep s (.release i)).handles i = .live 0) ∧
    (∀ (s : HMState) (i : Nat) (q : Ptr), getH s.handles i = .live q → q ≠ 0 →
        (hstep s (.destruct i)).rt.rc q = s.rt.rc q - 1) ∧
    (∀ (s : HMState) (i : Nat), getH s.handles i = .live 0 →
        (hstep s (.destruct i)).rt = s.rt) ∧
    (∀ (s : HMState) (i : Nat) (q : Ptr), getH s.handles i = .live q →
        getH (hstep s (.moveCtor i)).handles i = .live 0) := by
  refine ⟨fun ops p hp => rcinv_foldl ops hinit rcinv_hinit p hp, ?_, ?_, ?_, ?_, ?_, ?_⟩
  · intro s q
    simp [hstep]
  · intro s q hq
    simp only [hstep]
    rw [Py_XINCREF_rc q q s.rt hq, if_pos rfl]
  · intro s i q hi
    refine ⟨by simp [hstep, hi], ?_⟩
    simp only [hstep, hi]
    exact getH_set_self s.handles i (.live 0) (getH_live_lt hi)
  · intro s i q hi hq
    simp only [hstep, hi]
    rw [Py_XDECREF_rc q q s.rt hq, if_pos rfl]
  · intro s i hi
    simp [hstep, hi, Py_XDECREF]
  · intro s i q hi
    simp only [hstep, hi]
    rw [getH_append_left _ _ i (by simpa using getH_live_lt hi)]
    exact getH_set_self s.handles i (.live 0) (getH_live_lt hi)

theorem c1_handle_refcount_ledger_witness :
    (hrun [HOp.steal 5, HOp.borrow 5, HOp.destruct 0, HOp.release 1]).rt.rc 5 =
      countLive (hrun [HOp.steal 5, HOp.borrow 5, HOp.destruct 0, HOp.release 1]).handles 5 +
        (hrun [HOp.steal 5, HOp.borrow 5, HOp.destruct 0, HOp.release 1]).ext 5 ∧
    (hstep (hrun [HOp.steal 5]) (.destruct 0)).rt.rc 5 = (hrun [HOp.steal 5]).rt.rc 5 - 1 :=
  ⟨c1_handle_refcount_ledger.1 _ 5 (by decide),
   c1_handle_refcount_ledger.2.2.2.2.1 _ 0 5 (by decide) (by decide)⟩

/-- **C10.** `PyObjectPtr::reset(p)` unconditionally `Py_XDECREF`s the
previously held pointer and then stores `p`, with no self-reset check:
`get()` equals `p` afterwards, and when `p` is the pointer already held
(and non-null) the object still receives one decrement even though the
handle continues to hold it. -/
theorem c10_reset_unconditional_decref
    (s : HMState) (i : Nat) (p q : Ptr) (hi : getH s.handles i = .live q) :
    getH (hstep s (.reset i p)).handles i = .live p ∧
    (hstep s (.reset i p)).rt = Py_XDECREF q s.rt ∧
    (q = p → p ≠ 0 →
      (hstep s (.reset i p)).rt.rc p = s.rt.rc p - 1 ∧
      getH (hstep s (.reset i p)).handles i = .live p) := by
  have hset : getH (hstep s (.reset i p)).handles i = .live p := by
    simp only [hstep, hi]
    exact getH_set_self s.handles i (.live p) (getH_live_lt hi)
  refine ⟨hset, by simp [hstep, hi], fun hqp hp => ⟨?_, hset⟩⟩
  simp only [hstep, hi]
  rw [Py_XDECREF_rc q p s.rt hp, if_pos hqp]

theorem c10_reset_unconditional_decref_witness :
    getH (hstep (hrun [HOp.steal 5]) (.reset 0 5)).handles 0 = .live 5 ∧
    (hstep (hrun [HOp.steal 5]) (.reset 0 5)).rt.rc 5 = (hrun [HOp.steal 5]).rt.rc 5 - 1 :=
  ⟨(c10_reset_unconditional_decref _ 0 5 5 (by decide)).1,
   ((c10_reset_unconditional_decref _ 0 5 5 (by decide)).2.2 rfl (by decide)).1⟩

/-!
## `ScopeGuard` — deferred cleanup

Each created guard owns a distinct cleanup action, identified by its
creation index.  `runs a` counts executions of action `a`; the ghost
flag `killed a` records whether `dismiss()` was ever called on a guard
while action `a` was still pending (dismissing a moved-from or
already-dismissed guard changes nothing observable).
-/

/-- State of one `ScopeGuard` slot: alive with its action id and
`active_` flag, or already destructed. -/
inductive GS where
  | live (act : Nat) (active_ : Bool)
  | dead
deriving DecidableEq

/-- Operations on `ScopeGuard`s: construction (`make_guard`),
`dismiss()`, move construction, destruction. -/
inductive SGOp where
  | create
  | dismiss (i : Nat)
  | moveCtor (i : Nat)
  | destruct (i : Nat)

/-- State of a guard-manipulating program. -/
structure SGState where
  guards : List GS
  runs : Nat → Nat
  killed : Nat → Bool
  nextAct : Nat

/-- Look up a guard slot; never-created indices read as `dead`. -/
def getG (l : List GS) (i : Nat) : GS := l.getD i .dead

/-- One step of the guard machine, transcribing `ScopeGuard`'s members:
the constructor stores the action with `active_ = true`; `dismiss()`
sets `active_ = false`; the move constructor copies
`(cleanup_, active_)` into a fresh guard and sets the source's
`active_` to false; the destructor runs the cleanup exactly when
`active_` is true. -/
def sgstep (s : SGState) : SGOp → SGState
  | .create =>
    { s with guards := s.guards ++ [.live s.nextAct true], nextAct := s.nextAct + 1 }
  | .dismiss i =>
    match getG s.guards i with
    | .live a true =>
      { s with guards := s.guards.set i (.live a false),
               killed := fun b => if b = a then true else s.killed b }
    | .live a false => { s with guards := s.guards.set i (.live a false) }
    | .dead => s
  | .moveCtor i =>
    match getG s.guards i with
    | .live a act => { s with guards := s.guards.set i (.live a false) ++ [.live a act] }
    | .dead => s
  | .destruct i =>
    match getG s.guards i with
    | .live a true =>
      { s with guards := s.guards.set i .dead,
               runs := fun b => if b = a then s.runs b + 1 else s.runs b }
    | .live _ false => { s with guards := s.guards.set i .dead }
    | .dead => s

/-- Initial guard-machine state. -/
def sginit : SGState := ⟨[], fun _ => 0, fun _ => false, 0⟩

/-- Run a guard program from the initial state. -/
def sgrun (ops : List SGOp) : SGState := ops.foldl sgstep sginit

/-- `1` if this slot is a live guard with action `a` still pending. -/
def actHits (a : Nat) : GS → Nat
  | .live b act => if b = a ∧ act then 1 else 0
  | .dead => 0

/-- Number of live guards on which action `a` is still pending. -/
def pendingCount (l : List GS) (a : Nat) : Nat := (l.map (actHits a)).sum

/-- All guards of the program have been destructed. -/
def allDead (l : List GS) : Bool := l.all fun g => decide (g = GS.dead)

theorem getG_live_lt {l : List GS} {i : Nat} {a : Nat} {act : Bool}
    (h : getG l i = .live a act) : i < l.length := by
  by_contra hge
  rw [getG, List.getD_eq_default _ _ (Nat.le_of_not_lt hge)] at h
  exact GS.noConfusion h

theorem getG_set_self (l : List GS) (i : Nat) (g : GS) (hi : i < l.length) :
    getG (l.set i g) i = g := by
  induction l generalizing i with
  | nil => exact absurd hi (Nat.not_lt_zero i)
  | cons x t ih =>
    cases i with
    | zero => simp [getG]
    | succ n =>
      simp only [List.set_cons_succ, getG, List.getD_cons_succ]
      exact ih n (Nat.lt_of_succ_lt_succ hi)

theorem pendingCount_append (l : List GS) (g : GS) (a : Nat) :
    pendingCount (l ++ [g]) a = pendingCount l a + actHits a g := by
  simp [pendingCount]

theorem pendingCount_set (l : List GS) (i : Nat) (g : GS) (a : Nat)
    (hi : i < l.length) :
    pendingCount (l.set i g) a + actHits a (getG l i) =
      pendingCount l a + actHits a g := by
  induction l generalizing i with
  | nil => exact absurd hi (Nat.not_lt_zero i)
  | cons x t ih =>
    cases i with
    | zero =>
      simp [pendingCount, getG]
      ring
    | succ n =>
      have hn : n < t.length := Nat.lt_of_succ_lt_succ hi
      have := ih n hn
      simp only [List.set_cons_succ, pendingCount, List.map_cons, List.sum_cons, getG,
        List.getD_cons_succ] at *
      omega

theorem actHits_dead (a : Nat) : actHits a .dead = 0 := rfl

theorem actHits_live_false (a b : Nat) : actHits a (.live b false) = 0 := by
  simp [actHits]

theorem actHits_live_true (a b : Nat) :
    actHits a (.live b true) = if b = a then 1 else 0 := by
  simp [actHits]

theorem pendingCount_lower (l : List GS) (i : Nat) (a : Nat) (hi : i < l.length) :
    actHits a (getG l i) ≤ pendingCount l a := by
  have h := pendingCount_set l i .dead a hi
  rw [actHits_dead] at h
  omega

theorem allDead_pendingCount (l : List GS) (a : Nat) (h : allDead l = true) :
    pendingCount l a = 0 := by
  induction l with
  | nil => rfl
  | cons x t ih =>
    simp only [allDead, List.all_cons, Bool.and_eq_true, decide_eq_true_eq] at h
    obtain ⟨hx, ht⟩ := h
    subst hx
    simpa [pendingCount, actHits] using ih (by simpa [allDead] using ht)

/-- Ledger invariant of the guard machine: every created action is either
pending on exactly one live guard, already executed exactly once, or was
dismissed while pending (and then neither runs nor is pending). -/
def SGInv (s : SGState) : Prop :=
  (∀ a, a < s.nextAct →
      s.runs a + pendingCount s.guards a = if s.killed a then 0 else 1) ∧
  (∀ a, s.nextAct ≤ a →
      s.runs a = 0 ∧ pendingCount s.guards a = 0 ∧ s.killed a = false)

theorem sginv_step {s : SGState} (inv : SGInv s) (op : SGOp) :
    SGInv (sgstep s op) := by
  obtain ⟨inv1, inv2⟩ := inv
  cases op with
  | create =>
    constructor
    · intro a ha
      simp only [sgstep] at ha ⊢
      rw [pendingCount_append, actHits_live_true]
      rcases Nat.lt_or_ge a s.nextAct with hlt | hge
      · have h1 := inv1 a hlt
        rw [if_neg (fun h : s.nextAct = a => Nat.lt_irrefl a (h ▸ hlt))]
        omega
      · have heq : s.nextAct = a := (Nat.le_antisymm (Nat.lt_succ_iff.mp ha) hge).symm
        have h2 := inv2 a (Nat.le_of_eq heq)
        rw [if_pos heq, if_neg (fun h => Bool.false_ne_true (h2.2.2 ▸ h))]
        omega
    · intro a ha
      simp only [sgstep] at ha ⊢
      have hgt : s.nextAct < a := Nat.lt_of_succ_le ha
      have h2 := inv2 a (Nat.le_of_lt hgt)
      rw [pendingCount_append, actHits_live_true,
        if_neg (fun h : s.nextAct = a => Nat.lt_irrefl a (h ▸ hgt))]
      exact ⟨h2.1, by omega, h2.2.2⟩
  | dismiss i =>
    cases hg : getG s.guards i with
    | dead => simpa [sgstep, hg] using ⟨inv1, inv2⟩
    | live a act =>
      have hlt := getG_live_lt hg
      have hset := fun b => pendingCount_set s.guards i (.live a false) b hlt
      rw [hg] at hset
      cases act with
      | false =>
        have hpc : ∀ b, pendingCount (s.guards.set i (.live a false)) b =
            pendingCount s.guards b := by
          intro b
          have h := hset b
          omega
        constructor
        · intro b hb
          simp only [sgstep, hg] at hb ⊢
          rw [hpc b]
          exact inv1 b hb
        · intro b hb
          simp only [sgstep, hg] at hb ⊢
          rw [hpc b]
          exact inv2 b hb
      | true =>
        have halt : a < s.nextAct := by
          by_contra hge
          have h2 := inv2 a (Nat.le_of_not_lt hge)
          have hlow := pendingCount_lower s.guards i a hlt
          rw [hg, actHits_live_true, if_pos rfl] at hlow
          omega
        constructor
        · intro b hb
          simp only [sgstep, hg] at hb ⊢
          have hs := hset b
          rw [actHits_live_true, actHits_live_false] at hs
          by_cases hba : b = a
          · subst hba
            have h1 := inv1 b hb
            have hlow := pendingCount_lower s.guards i b hlt
            rw [hg, actHits_live_true, if_pos rfl] at hlow
            rw [if_pos rfl] at hs
            simp only [if_pos rfl, eq_self_iff_true, if_true]
            split_ifs at h1 <;> omega
          · have h1 := inv1 b hb
            rw [if_neg (fun h : a = b => hba h.symm)] at hs
            rw [if_neg hba]
            omega
        · intro b hb
          simp only [sgstep, hg] at hb ⊢
          have h2 := inv2 b hb
          have hs := hset b
          rw [actHits_live_true, actHits_live_false] at hs
          have hba : ¬b = a := fun h => Nat.not_lt.mpr hb (h ▸ halt)
          rw [if_neg (fun h : a = b => hba h.symm)] at hs
          refine ⟨h2.1, by omega, ?_⟩
          rw [if_neg hba]
          exact h2.2.2
  | moveCtor i =>
    cases hg : getG s.guards i with
    | dead => simpa [sgstep, hg] using ⟨inv1, inv2⟩
    | live a act =>
      have hlt := getG_live_lt hg
      have hset := fun b => pendingCount_set s.guards i (.live a false) b hlt
      rw [hg] at hset
      have hpc : ∀ b, pendingCount (s.guards.set i (.live a false) ++ [.live a act]) b =
          pendingCount s.guards b := by
        intro b
        rw [pendingCount_append]
        have hs := hset b
        rw [actHits_live_false] at hs
        omega
      constructor
      · intro b hb
        simp only [sgstep, hg] at hb ⊢
        rw [hpc b]
        exact inv1 b hb
      · intro b hb
        simp only [sgstep, hg] at hb ⊢
        rw [hpc b]
        exact inv2 b hb
  | destruct i =>
    cases hg : getG s.guards i with
    | dead => simpa [sgstep, hg] using ⟨inv1, inv2⟩
    | live a act =>
      have hlt := getG_live_lt hg
      have hset := fun b => pendingCount_set s.guards i .dead b hlt
      rw [hg] at hset
      cases act with
      | false =>
        have hpc : ∀ b, pendingCount (s.guards.set i .dead) b =
            pendingCount s.guards b := by
          intro b
          have h := hset b
          rw [actHits_live_false, actHits_dead] at h
          omega
        constructor
        · intro b hb
          simp only [sgstep, hg] at hb ⊢
          rw [hpc b]
          exact inv1 b hb
        · intro b hb
          simp only [sgstep, hg] at hb ⊢
          rw [hpc b]
          exact inv2 b hb
      | true =>
        have halt : a < s.nextAct := by
          by_contra hge
          have h2 := inv2 a (Nat.le_of_not_lt hge)
          have hlow := pendingCount_lower s.guards i a hlt
          rw [hg, actHits_live_true, if_pos rfl] at hlow
          omega
        constructor
        · intro b hb
          simp only [sgstep, hg] at hb ⊢
          have hs := hset b
          rw [actHits_live_true, actHits_dead] at hs
          by_cases hba : b = a
          · subst hba
            have h1 := inv1 b hb
            have hlow := pendingCount_lower s.guards i b hlt
            rw [hg, actHits_live_true, if_pos rfl] at hlow
            rw [if_pos rfl] at hs
            rw [if_pos rfl]
            omega
          · have h1 := inv1 b hb
            rw [if_neg (fun h : a = b => hba h.symm)] at hs
            rw [if_neg hba]
            omega
        · intro b hb
          simp only [sgstep, hg] at hb ⊢
          have h2 := inv2 b hb
          have hs := hset b
          rw [actHits_live_true, actHits_dead] at hs
          have hba : ¬b = a := fun h => Nat.not_lt.mpr hb (h ▸ halt)
          rw [if_neg (fun h : a = b => hba h.symm)] at hs
          exact ⟨by rw [if_neg hba]; exact h2.1, by omega, h2.2.2⟩

theorem sginv_foldl (ops : List SGOp) :
    ∀ s : SGState, SGInv s → SGInv (ops.foldl sgstep s) := by
  induction ops with
  | nil => exact fun s h => h
  | cons op rest ih =>
    intro s h
    exact ih (sgstep s op) (sginv_step h op)

theorem sginv_sginit : SGInv sginit := by
  constructor
  · intro a ha
    exact absurd ha (Nat.not_lt_zero a)
  · intro a _
    exact ⟨rfl, rfl, rfl⟩

/-- **C2.** For every `ScopeGuard` and every sequence of
dismiss/move/destruct operations: each cleanup action runs at most once;
once all guards are destroyed it ran exactly once unless `dismiss()` was
called on the guard holding it while it was still pending; `dismiss()`
is idempotent; and destroying a moved-from guard runs nothing. -/
theorem c2_cleanup_runs_exactly_once :
    (∀ (ops : List SGOp) (a : Nat), (sgrun ops).runs a ≤ 1) ∧
    (∀ (ops : List SGOp) (a : Nat), a < (sgrun ops).nextAct →
        allDead (sgrun ops).guards = true →
        (sgrun ops).runs a = if (sgrun ops).killed a = true then 0 else 1) ∧
    (∀ (s : SGState) (i : Nat),
        sgstep (sgstep s (.dismiss i)) (.dismiss i) = sgstep s (.dismiss i)) ∧
    (∀ (s : SGState) (i : Nat) (a : Nat) (act : Bool),
        getG s.guards i = .live a act →
        (sgstep (sgstep s (.moveCtor i)) (.destruct i)).runs =
          (sgstep s (.moveCtor i)).runs) := by
  refine ⟨?_, ?_, ?_, ?_⟩
  · intro ops a
    simp only [sgrun]
    obtain ⟨inv1, inv2⟩ := sginv_foldl ops sginit sginv_sginit
    rcases Nat.lt_or_ge a ((ops.foldl sgstep sginit).nextAct) with hlt | hge
    · have h := inv1 a hlt
      split_ifs at h <;> omega
    · have h := (inv2 a hge).1
      omega
  · intro ops a ha hdead
    simp only [sgrun] at ha hdead ⊢
    obtain ⟨inv1, inv2⟩ := sginv_foldl ops sginit sginv_sginit
    have h := inv1 a ha
    rw [allDead_pendingCount _ a hdead] at h
    omega
  · intro s i
    cases hg : getG s.guards i with
    | dead =>
      have h : sgstep s (.dismiss i) = s := by simp [sgstep, hg]
      rw [h]
      exact h
    | live a act =>
      have hlt := getG_live_lt hg
      have hg1 : getG (s.guards.set i (.live a false)) i = .live a false :=
        getG_set_self _ _ _ (by simpa using hlt)
      cases act with
      | true => simp only [sgstep, hg, hg1, List.set_set]
      | false => simp only [sgstep, hg, hg1, List.set_set]
  · intro s i a act hg
    have hlt := getG_live_lt hg
    have hg1 : getG (s.guards.set i (.live a false) ++ [.live a act]) i = .live a false := by
      rw [getG, List.getD_append _ _ _ _ (by simpa using hlt)]
      exact getG_set_self _ _ _ (by simpa using hlt)
    simp only [sgstep, hg, hg1]

theorem c2_cleanup_runs_exactly_once_witness :
    (sgrun [SGOp.create, SGOp.moveCtor 0, SGOp.destruct 0, SGOp.destruct 1]).runs 0 =
      if (sgrun [SGOp.create, SGOp.moveCtor 0, SGOp.destruct 0,
          SGOp.destruct 1]).killed 0 = true then 0 else 1 :=
  c2_cleanup_runs_exactly_once.2.1 _ 0 (by decide) (by decide)

/-!
## `ScopeGuard` destructor and exceptions

The destructor body is `if (active_) { try { cleanup_(); } catch (...) {} }`.
A cleanup that can fail is a value of `Except E Unit`.
-/

/-- C++ `try { body } catch (...) {}` with an empty handler: a raised
exception is caught and discarded, execution continues normally. -/
def tryCatchAll {E : Type} (body : Except E Unit) : Except E Unit :=
  match body with
  | .ok a => .ok a
  | .error _ => .ok ()

/-- `ScopeGuard::~ScopeGuard()`: runs the cleanup inside
`try { ... } catch (...) {}` when `active_` is set, else does nothing. -/
def scopeGuardDtor {E : Type} (active_ : Bool) (cleanup_ : Except E Unit) :
    Except E Unit :=
  if active_ then tryCatchAll cleanup_ else .ok ()

/-- Outcome of running a destructor while an exception is in flight. -/
inductive UnwindOutcome (E : Type) where
  | propagates (e : E)
  | terminates
deriving DecidableEq

/-- C++ unwind semantics: while `primary` is in flight, a destructor
runs; if it completes, `primary` keeps propagating; if the destructor
itself exits with an exception, the process terminates. -/
def runDtorDuringUnwind {E : Type} (primary : E) (dtor : Except E Unit) :
    UnwindOutcome E :=
  match dtor with
  | .ok _ => .propagates primary
  | .error _ => .terminates

/-- **C3.** For every cleanup action, including one that raises, the
`ScopeGuard` destructor completes normally (never exits with an
exception), so running it during unwind of any in-flight failure lets
that primary failure keep propagating unchanged. -/
theorem c3_dtor_swallows_cleanup_failure (E : Type) (active_ : Bool)
    (cleanup_ : Except E Unit) (primary : E) :
    scopeGuardDtor active_ cleanup_ = Except.ok () ∧
    runDtorDuringUnwind primary (scopeGuardDtor active_ cleanup_) =
      UnwindOutcome.propagates primary := by
  have h : scopeGuardDtor active_ cleanup_ = Except.ok () := by
    cases active_ <;> cases cleanup_ <;> rfl
  exact ⟨h, by rw [h]; rfl⟩

/-!
## Converter claims
-/

/-- **C4 (counterexample).** The claim that `py_to_long` returns the
fallback `0` without setting the error state on a non-numeric object is
false: on the string object `"x"` it returns `-1` with the error state
set, because it delegates to `PyLong_AsLongLong`, which raises
`TypeError` on non-integer-like input. -/
theorem c4_counterexample_py_to_long_raises :
    py_to_long (PyVal.str "x") false = (-1, true) ∧
    ¬((py_to_long (PyVal.str "x") false).1 = 0 ∧
      (py_to_long (PyVal.str "x") false).2 = false) := by
  decide

/-- **C4 (amended).** `py_to_double` on input that is neither
float-like nor integer-like returns the fallback `0.0` and leaves the
error state unchanged; integer-like input in `int64` range is widened to
floating point.  `py_to_long`, by contrast, delegates to the runtime's
integer coercion, which on such input returns `-1` with the error state
set. -/
theorem c4_lenient_double_strict_long :
    (∀ (v : PyVal) (err : Bool), PyFloat_Check v = false → PyLong_Check v = false →
        py_to_double v err = (0, err)) ∧
    (∀ (v : ℤ) (err : Bool), INT64_MIN ≤ v → v ≤ INT64_MAX →
        py_to_double (.int v) err = (longAsDouble v, err)) ∧
    (∀ (v : PyVal) (err : Bool), PyFloat_Check v = false → PyLong_Check v = false →
        py_to_long v err = (-1, true)) := by
  refine ⟨?_, ?_, ?_⟩
  · intro v err h1 h2
    cases v <;> simp_all [py_to_double, PyFloat_Check, PyLong_Check]
  · intro v err h1 h2
    simp [py_to_double, PyFloat_Check, PyLong_Check, PyLong_AsLongLong, if_pos (And.intro h1 h2)]
  · intro v err h1 h2
    cases v <;> simp_all [py_to_long, PyLong_AsLongLong, PyFloat_Check, PyLong_Check]

theorem c4_lenient_double_strict_long_witness :
    py_to_double (PyVal.str "x") false = (0, false) ∧
    py_to_double (PyVal.int (-7)) true = (longAsDouble (-7), true) ∧
    py_to_long (PyVal.obj none false) false = (-1, true) :=
  ⟨c4_lenient_double_strict_long.1 _ _ (by decide) (by decide),
   c4_lenient_double_strict_long.2.1 (-7) true (by decide) (by decide),
   c4_lenient_double_strict_long.2.2 _ _ (by decide) (by decide)⟩

/-- **C5.** The scalar conversions round-trip on the spec's examples:
`py_to_double (double_to_py 3.14) = 3.14` (the double stored exactly),
`py_to_long (long_to_py (-7)) = -7`, and
`py_to_string (string_to_py "abc") = "abc"`, all without touching the
error state. -/
theorem c5_conversion_round_trip :
    py_to_double (double_to_py (314 / 100 : CDouble)) false = ((314 / 100 : CDouble), false) ∧
    py_to_long (long_to_py (-7)) false = (-7, false) ∧
    py_to_string (string_to_py "abc") false = (some "abc", false) := by
  refine ⟨?_, by decide, by decide⟩
  simp [py_to_double, double_to_py, PyFloat_Check, PyFloat_AsDouble]

theorem PyObject_IsTrue_err_val {v : PyVal} (h : (PyObject_IsTrue v).2 = true) :
    (PyObject_IsTrue v).1 = -1 := by
  cases v with
  | int n => simp [PyObject_IsTrue] at h
  | bool b => simp [PyObject_IsTrue] at h
  | float q => simp [PyObject_IsTrue] at h
  | str s => simp [PyObject_IsTrue] at h
  | obj t e =>
    cases t with
    | some b => simp [PyObject_IsTrue] at h
    | none => rfl

theorem PyObject_IsTrue_zero_no_err {v : PyVal} (h : (PyObject_IsTrue v).1 = 0) :
    (PyObject_IsTrue v).2 = false := by
  cases v with
  | int n => rfl
  | bool b => rfl
  | float q => rfl
  | str s => rfl
  | obj t e =>
    cases t with
    | some b => rfl
    | none => simp [PyObject_IsTrue] at h

/-- **C9.** When the runtime's truth-value query fails (`PyObject_IsTrue`
returns `-1` with an error raised), `py_to_bool` returns `true` and the
error state stays set — a failed truth test is indistinguishable from a
genuinely true value; and `py_to_bool` returns `false` exactly when the
truth test succeeds with result `0`. -/
theorem c9_py_to_bool_error_reads_true (v : PyVal) (err : Bool) :
    ((PyObject_IsTrue v).2 = true →
      (py_to_bool v err).1 = true ∧ (py_to_bool v err).2 = true) ∧
    ((py_to_bool v err).1 = false ↔
      (PyObject_IsTrue v).1 = 0 ∧ (PyObject_IsTrue v).2 = false) := by
  constructor
  · intro h
    constructor
    · show decide ((PyObject_IsTrue v).1 ≠ 0) = true
      rw [PyObject_IsTrue_err_val h]
      decide
    · show (err || (PyObject_IsTrue v).2) = true
      rw [h, Bool.or_true]
  · constructor
    · intro h
      have h1 : decide ((PyObject_IsTrue v).1 ≠ 0) = false := h
      have h2 : (PyObject_IsTrue v).1 = 0 := by simpa using h1
      exact ⟨h2, PyObject_IsTrue_zero_no_err h2⟩
    · intro h
      show decide ((PyObject_IsTrue v).1 ≠ 0) = false
      rw [h.1]
      decide

theorem c9_py_to_bool_error_reads_true_witness :
    (py_to_bool (PyVal.obj none false) false).1 = true ∧
    (py_to_bool (PyVal.obj none false) false).2 = true ∧
    ((py_to_bool (PyVal.int 0) false).1 = false ↔
      (PyObject_IsTrue (PyVal.int 0)).1 = 0 ∧ (PyObject_IsTrue (PyVal.int 0)).2 = false) :=
  ⟨((c9_py_to_bool_error_reads_true (PyVal.obj none false) false).1 (by decide)).1,
   ((c9_py_to_bool_error_reads_true (PyVal.obj none false) false).1 (by decide)).2,
   (c9_py_to_bool_error_reads_true (PyVal.int 0) false).2⟩

/-!
## GIL guards

The lock state of the calling thread is a `Bool` (`true` = this thread
holds the GIL).  `PyGILState_Ensure` always leaves the thread holding
the lock and returns a token recording the previous state (this is the
runtime's nested-state mechanism: a second `Ensure` on the same thread
is a no-op on the state); `PyGILState_Release` restores the recorded
state.  `PyEval_SaveThread` releases the lock (precondition: held) and
`PyEval_RestoreThread` reacquires it.
-/

/-- Whether the calling thread holds the GIL. -/
abbrev GILHeld := Bool

/-- CPython `PyGILState_Ensure`: `(state afterwards, token)`. -/
def PyGILState_Ensure (held : GILHeld) : GILHeld × Bool := (true, held)

/-- CPython `PyGILState_Release(token)`: restores the recorded state. -/
def PyGILState_Release (token : Bool) (_held : GILHeld) : GILHeld := token

/-- CPython `PyEval_SaveThread`: releases the GIL. -/
def PyEval_SaveThread (_held : GILHeld) : GILHeld := false

/-- CPython `PyEval_RestoreThread`: reacquires the GIL. -/
def PyEval_RestoreThread (_held : GILHeld) : GILHeld := true

/-- `GILGuard`: `state_` is the token saved by the constructor. -/
structure GILGuard where
  state_ : Bool
deriving DecidableEq

/-- `GILGuard` constructor `state_(PyGILState_Ensure())`: returns the
guard and the lock state afterwards. -/
def GILGuard.construct (held : GILHeld) : GILGuard × GILHeld :=
  let r := PyGILState_Ensure held
  (⟨r.2⟩, r.1)

/-- `GILGuard` destructor: `PyGILState_Release(state_)`. -/
def GILGuard.destruct (g : GILGuard) (held : GILHeld) : GILHeld :=
  PyGILState_Release g.state_ held

/-- `GILRelease`: `save_` is the opaque thread state saved by
`PyEval_SaveThread`. -/
structure GILRelease where
  save_ : Unit
deriving DecidableEq

/-- `GILRelease` constructor `save_(PyEval_SaveThread())`. -/
def GILRelease.construct (held : GILHeld) : GILRelease × GILHeld :=
  (⟨()⟩, PyEval_SaveThread held)

/-- `GILRelease` destructor: `PyEval_RestoreThread(save_)`. -/
def GILRelease.destruct (_g : GILRelease) (held : GILHeld) : GILHeld :=
  PyEval_RestoreThread held

/-- **C7.** Over the lock-state machine: constructing a `GILGuard`
always leaves the lock held (a no-op on the state when already held)
and destroying it restores the prior state exactly; constructing a
`GILRelease` while the lock is held moves it to not-held and destroying
it restores held; hence construct-then-destruct of a `GILGuard` is the
identity on the lock state from any starting state, and nesting two
guards on the same thread completes and round-trips (the inner `Ensure`
does not block — the runtime's token mechanism makes it reentrant). -/
theorem c7_gil_state_machine :
    (∀ s : GILHeld, (GILGuard.construct s).2 = true) ∧
    (∀ s : GILHeld,
        GILGuard.destruct (GILGuard.construct s).1 (GILGuard.construct s).2 = s) ∧
    (∀ s : GILHeld, s = true →
        (GILRelease.construct s).2 = false ∧
        GILRelease.destruct (GILRelease.construct s).1 (GILRelease.construct s).2 = true) ∧
    (∀ s : GILHeld,
        GILGuard.destruct (GILGuard.construct s).1
          (GILGuard.destruct (GILGuard.construct (GILGuard.construct s).2).1
            (GILGuard.construct (GILGuard.construct s).2).2) = s) := by
  decide

theorem c7_gil_state_machine_witness :
    GILGuard.destruct (GILGuard.construct false).1 (GILGuard.construct false).2 = false ∧
    (GILRelease.construct true).2 = false :=
  ⟨c7_gil_state_machine.2.1 false, (c7_gil_state_machine.2.2.1 true rfl).1⟩

/-!
## `NumpyBuffer` — buffer-protocol view

`PyObject_GetBuffer(arr, &view, PyBUF_STRIDES | PyBUF_FORMAT)` either
fills the view from the exporter's descriptor, takes a new reference on
the exporter (`view.obj`), and returns `0`, or returns `-1` with a
`TypeError` raised and no reference taken.  `PyBuffer_Release` gives
the view back to the exporter and drops the reference on `view.obj`.
Each successful acquisition is tagged with a fresh ghost id `viewId`
so that releases can be counted per acquisition.
-/

/-- The data an exporting object offers through the buffer protocol. -/
structure BufDesc where
  buf : Nat
  len : ℤ
  itemsize : ℤ
  shape : List ℤ
  strides : List ℤ
  fmt : String
  readonly : Bool
deriving DecidableEq

/-- A `Py_buffer` view: exporter pointer (`0` = `NULL`), the copied
descriptor, and the ghost acquisition id. -/
structure Py_buffer where
  obj : Ptr
  desc : BufDesc
  viewId : Nat
deriving DecidableEq

/-- An empty descriptor, standing for the untouched fields of a view
whose acquisition failed. -/
def BufDesc.nullDesc : BufDesc := ⟨0, 0, 0, [], [], "", false⟩

/-- World state of the buffer subsystem: refcount ledger, runtime error
flag, the (fixed) buffer-export capability of each object, the next
fresh acquisition id, and how many times each acquisition has been
released. -/
structure BufWorld where
  rt : RT
  err : Bool
  exports : Ptr → Option BufDesc
  nextView : Nat
  released : Nat → Nat

/-- CPython `PyBuffer_Release`: hands the view back to the exporter and
drops the reference on `view.obj`. -/
def PyBuffer_Release (w : BufWorld) (view : Py_buffer) : BufWorld :=
  { w with rt := Py_XDECREF view.obj w.rt,
           released := fun v => if v = view.viewId then w.released v + 1
                                else w.released v }

/-- The `NumpyBuffer` wrapper: the view and the `valid_` flag. -/
structure NumpyBuffer where
  view_ : Py_buffer
  valid_ : Bool
deriving DecidableEq

/-- `NumpyBuffer(PyObject* arr)`: `view_.obj = nullptr;` then
`PyObject_GetBuffer(arr, &view_, PyBUF_STRIDES | PyBUF_FORMAT)`;
`valid_` is set only when the call returns `0`.  On success the runtime
fills the view from the exporter's descriptor and takes a reference on
the exporter; on failure it raises and the view stays null. -/
def NumpyBuffer.construct (w : BufWorld) (arr : Ptr) : NumpyBuffer × BufWorld :=
  match w.exports arr with
  | some d =>
    (⟨⟨arr, d, w.nextView⟩, true⟩,
     { w with rt := Py_XINCREF arr w.rt, nextView := w.nextView + 1 })
  | none => (⟨⟨0, BufDesc.nullDesc, w.nextView⟩, false⟩, { w with err := true })

/-- `~NumpyBuffer()`: `if (valid_) PyBuffer_Release(&view_);`. -/
def NumpyBuffer.destruct (b : NumpyBuffer) (w : BufWorld) : BufWorld :=
  if b.valid_ then PyBuffer_Release w b.view_ else w

/-- The source of a move: `valid_ = false; view_.obj = nullptr;`. -/
def movedFrom (b : NumpyBuffer) : NumpyBuffer :=
  ⟨{ b.view_ with obj := 0 }, false⟩

/-- **C6.** Constructing a `NumpyBuffer` over an object that does not
export a compatible buffer yields an invalid view (`valid()==false`)
with no side effect on the exporter's reference count or the release
ledger (only the runtime error is raised), and destroying that invalid
view performs no buffer release at all. -/
theorem c6_failed_buffer_acquisition_no_side_effects (w : BufWorld) (arr : Ptr)
    (h : w.exports arr = none) :
    (NumpyBuffer.construct w arr).1.valid_ = false ∧
    (NumpyBuffer.construct w arr).2.rt = w.rt ∧
    (NumpyBuffer.construct w arr).2.released = w.released ∧
    NumpyBuffer.destruct (NumpyBuffer.construct w arr).1 (NumpyBuffer.construct w arr).2 =
      (NumpyBuffer.construct w arr).2 := by
  simp [NumpyBuffer.construct, NumpyBuffer.destruct, h]

/-- A concrete world in which no object exports a buffer. -/
def noExportWorld : BufWorld := ⟨⟨fun _ => 0⟩, false, fun _ => none, 0, fun _ => 0⟩

/-- State of one `NumpyBuffer` slot in a buffer program. -/
inductive BS where
  | live (b : NumpyBuffer)
  | dead
deriving DecidableEq

/-- Operations on `NumpyBuffer`s: construction over an object, move
construction, move assignment, destruction. -/
inductive BOp where
  | construct (arr : Ptr)
  | moveCtor (src : Nat)
  | moveAssign (src dst : Nat)
  | destruct (i : Nat)

/-- State of a buffer-manipulating program. -/
structure BMState where
  w : BufWorld
  bufs : List BS

/-- Look up a buffer slot; never-created indices read as `dead`. -/
def getB (l : List BS) (i : Nat) : BS := l.getD i .dead

/-- One step of the buffer machine, transcribing `NumpyBuffer`'s
members: the move constructor copies `(view_, valid_)` and invalidates
the source; move assignment (on distinct objects) first releases the
target's own valid view, then adopts the source's and invalidates it;
the destructor releases exactly when `valid_`. -/
def bstep (s : BMState) : BOp → BMState
  | .construct arr =>
    ⟨(NumpyBuffer.construct s.w arr).2, s.bufs ++ [.live (NumpyBuffer.construct s.w arr).1]⟩
  | .moveCtor src =>
    match getB s.bufs src with
    | .live b => ⟨s.w, s.bufs.set src (.live (movedFrom b)) ++ [.live b]⟩
    | .dead => s
  | .moveAssign src dst =>
    if src = dst then s
    else
      match getB s.bufs src, getB s.bufs dst with
      | .live b, .live c =>
        ⟨NumpyBuffer.destruct c s.w,
         (s.bufs.set dst (.live b)).set src (.live (movedFrom b))⟩
      | _, _ => s
  | .destruct i =>
    match getB s.bufs i with
    | .live b => ⟨NumpyBuffer.destruct b s.w, s.bufs.set i .dead⟩
    | .dead => s

/-- Initial buffer-machine state over a given export capability. -/
def binit (ex : Ptr → Option BufDesc) : BMState :=
  ⟨⟨⟨fun _ => 0⟩, false, ex, 0, fun _ => 0⟩, []⟩

/-- Run a buffer program from the initial state. -/
def brun (ex : Ptr → Option BufDesc) (ops : List BOp) : BMState :=
  ops.foldl bstep (binit ex)

/-- `1` if this slot is a live, valid buffer holding acquisition `v`. -/
def viewHits (v : Nat) : BS → Nat
  | .live b => if b.view_.viewId = v ∧ b.valid_ = true then 1 else 0
  | .dead => 0

/-- Number of live valid buffers holding acquisition `v`. -/
def viewCount (l : List BS) (v : Nat) : Nat := (l.map (viewHits v)).sum

/-- All buffers of the program have been destructed. -/
def allDeadB (l : List BS) : Bool := l.all fun b => decide (b = BS.dead)

theorem getB_live_lt {l : List BS} {i : Nat} {b : NumpyBuffer}
    (h : getB l i = .live b) : i < l.length := by
  by_contra hge
  rw [getB, List.getD_eq_default _ _ (Nat.le_of_not_lt hge)] at h
  exact BS.noConfusion h

theorem getB_set_self (l : List BS) (i : Nat) (x : BS) (hi : i < l.length) :
    getB (l.set i x) i = x := by
  induction l generalizing i with
  | nil => exact absurd hi (Nat.not_lt_zero i)
  | cons a t ih =>
    cases i with
    | zero => simp [getB]
    | succ n =>
      simp only [List.set_cons_succ, getB, List.getD_cons_succ]
      exact ih n (Nat.lt_of_succ_lt_succ hi)

theorem getB_set_ne (l : List BS) (i j : Nat) (x : BS) (hij : i ≠ j) :
    getB (l.set j x) i = getB l i := by
  induction l generalizing i j with
  | nil => simp [getB]
  | cons a t ih =>
    cases j with
    | zero =>
      cases i with
      | zero => exact absurd rfl hij
      | succ n => simp [getB]
    | succ m =>
      cases i with
      | zero => simp [getB]
      | succ n =>
        simp only [List.set_cons_succ, getB, List.getD_cons_succ]
        exact ih n m (fun hh => hij (by rw [hh]))

theorem viewCount_append (l : List BS) (x : BS) (v : Nat) :
    viewCount (l ++ [x]) v = viewCount l v + viewHits v x := by
  simp [viewCount]

theorem viewCount_set (l : List BS) (i : Nat) (x : BS) (v : Nat)
    (hi : i < l.length) :
    viewCount (l.set i x) v + viewHits v (getB l i) =
      viewCount l v + viewHits v x := by
  induction l generalizing i with
  | nil => exact absurd hi (Nat.not_lt_zero i)
  | cons a t ih =>
    cases i with
    | zero =>
      simp [viewCount, getB]
      ring
    | succ n =>
      have hn : n < t.length := Nat.lt_of_succ_lt_succ hi
      have := ih n hn
      simp only [List.set_cons_succ, viewCount, List.map_cons, List.sum_cons, getB,
        List.getD_cons_succ] at *
      omega

theorem viewCount_lower (l : List BS) (i : Nat) (v : Nat) (hi : i < l.length) :
    viewHits v (getB l i) ≤ viewCount l v := by
  have h := viewCount_set l i .dead v hi
  rw [show viewHits v BS.dead = 0 from rfl] at h
  omega

theorem allDeadB_viewCount (l : List BS) (v : Nat) (h : allDeadB l = true) :
    viewCount l v = 0 := by
  induction l with
  | nil => rfl
  | cons x t ih =>
    simp only [allDeadB, List.all_cons, Bool.and_eq_true, decide_eq_true_eq] at h
    obtain ⟨hx, ht⟩ := h
    subst hx
    simpa [viewCount, viewHits] using ih (by simpa [allDeadB] using ht)

theorem viewHits_movedFrom (v : Nat) (b : NumpyBuffer) :
    viewHits v (.live (movedFrom b)) = 0 := by
  simp [viewHits, movedFrom]

theorem PyBuffer_Release_released (w : BufWorld) (view : Py_buffer) (v : Nat) :
    (PyBuffer_Release w view).released v =
      w.released v + (if view.viewId = v then 1 else 0) := by
  show (if v = view.viewId then w.released v + 1 else w.released v) = _
  by_cases h : v = view.viewId
  · rw [if_pos h, if_pos h.symm]
  · rw [if_neg h, if_neg (fun hh => h hh.symm), Nat.add_zero]

theorem NumpyBuffer_destruct_released_valid {b : NumpyBuffer} (w : BufWorld)
    (hv : b.valid_ = true) (v : Nat) :
    (NumpyBuffer.destruct b w).released v =
      w.released v + (if b.view_.viewId = v then 1 else 0) := by
  rw [NumpyBuffer.destruct, if_pos hv, PyBuffer_Release_released]

theorem NumpyBuffer_destruct_invalid {b : NumpyBuffer} (w : BufWorld)
    (hv : b.valid_ = false) : NumpyBuffer.destruct b w = w := by
  rw [NumpyBuffer.destruct, hv]
  rfl

theorem NumpyBuffer_destruct_nextView (b : NumpyBuffer) (w : BufWorld) :
    (NumpyBuffer.destruct b w).nextView = w.nextView := by
  cases hb : b.valid_ <;> simp [NumpyBuffer.destruct, PyBuffer_Release, hb]

/-- Ledger invariant of the buffer machine: every acquired view is held
validly by exactly one live buffer or has been released exactly once. -/
def BInv (s : BMState) : Prop :=
  (∀ v, v < s.w.nextView → s.w.released v + viewCount s.bufs v = 1) ∧
  (∀ v, s.w.nextView ≤ v → s.w.released v = 0 ∧ viewCount s.bufs v = 0)

theorem c6_failed_buffer_acquisition_witness :
    (NumpyBuffer.construct noExportWorld 3).1.valid_ = false ∧
    (NumpyBuffer.construct noExportWorld 3).2.rt = noExportWorld.rt ∧
    NumpyBuffer.destruct (NumpyBuffer.construct noExportWorld 3).1
        (NumpyBuffer.construct noExportWorld 3).2 =
      (NumpyBuffer.construct noExportWorld 3).2 :=
  ⟨(c6_failed_buffer_acquisition_no_side_effects noExportWorld 3 rfl).1,
   (c6_failed_buffer_acquisition_no_side_effects noExportWorld 3 rfl).2.1,
   (c6_failed_buffer_acquisition_no_side_effects noExportWorld 3 rfl).2.2.2⟩

theorem viewHits_fresh (v n : Nat) (arr : Ptr) (d : BufDesc) :
    viewHits v (.live ⟨⟨arr, d, n⟩, true⟩) = if n = v then 1 else 0 := by
  simp [viewHits]

theorem viewHits_freshInvalid (v n : Nat) :
    viewHits v (.live ⟨⟨0, BufDesc.nullDesc, n⟩, false⟩) = 0 := by
  simp [viewHits]

theorem viewHits_valid {c : NumpyBuffer} (v : Nat) (hcv : c.valid_ = true) :
    viewHits v (.live c) = if c.view_.viewId = v then 1 else 0 := by
  simp [viewHits, hcv]

theorem viewHits_invalid {c : NumpyBuffer} (v : Nat) (hcv : c.valid_ = false) :
    viewHits v (.live c) = 0 := by
  simp [viewHits, hcv]

theorem binv_step {s : BMState} (inv : BInv s) (op : BOp) : BInv (bstep s op) := by
  obtain ⟨inv1, inv2⟩ := inv
  cases op with
  | construct arr =>
    cases he : s.w.exports arr with
    | some d =>
      constructor
      · intro v hv
        simp only [bstep, NumpyBuffer.construct, he] at hv ⊢
        rw [viewCount_append, viewHits_fresh]
        rcases Nat.lt_or_ge v s.w.nextView with hlt | hge
        · have h1 := inv1 v hlt
          rw [if_neg (fun h : s.w.nextView = v => Nat.lt_irrefl v (h ▸ hlt))]
          omega
        · have heq : s.w.nextView = v := (Nat.le_antisymm (Nat.lt_succ_iff.mp hv) hge).symm
          have h2 := inv2 v (Nat.le_of_eq heq)
          rw [if_pos heq]
          omega
      · intro v hv
        simp only [bstep, NumpyBuffer.construct, he] at hv ⊢
        have hgt : s.w.nextView < v := Nat.lt_of_succ_le hv
        have h2 := inv2 v (Nat.le_of_lt hgt)
        rw [viewCount_append, viewHits_fresh,
          if_neg (fun h : s.w.nextView = v => Nat.lt_irrefl v (h ▸ hgt))]
        omega
    | none =>
      constructor
      · intro v hv
        simp only [bstep, NumpyBuffer.construct, he] at hv ⊢
        rw [viewCount_append, viewHits_freshInvalid]
        have h1 := inv1 v hv
        omega
      · intro v hv
        simp only [bstep, NumpyBuffer.construct, he] at hv ⊢
        have h2 := inv2 v hv
        rw [viewCount_append, viewHits_freshInvalid]
        omega
  | moveCtor src =>
    cases hg : getB s.bufs src with
    | dead => simpa [bstep, hg] using ⟨inv1, inv2⟩
    | live b =>
      have hlt := getB_live_lt hg
      have hset := fun v => viewCount_set s.bufs src (.live (movedFrom b)) v hlt
      rw [hg] at hset
      constructor
      · intro v hv
        simp only [bstep, hg] at hv ⊢
        rw [viewCount_append]
        have h1 := inv1 v hv
        have hs := hset v
        rw [viewHits_movedFrom] at hs
        omega
      · intro v hv
        simp only [bstep, hg] at hv ⊢
        have h2 := inv2 v hv
        have hs := hset v
        rw [viewHits_movedFrom] at hs
        rw [viewCount_append]
        exact ⟨h2.1, by omega⟩
  | moveAssign src dst =>
    by_cases hsd : src = dst
    · simpa [bstep, hsd] using ⟨inv1, inv2⟩
    · cases hgsrc : getB s.bufs src with
      | dead =>
        cases hgdst : getB s.bufs dst <;>
          simpa [bstep, hsd, hgsrc, hgdst] using ⟨inv1, inv2⟩
      | live b =>
        cases hgdst : getB s.bufs dst with
        | dead => simpa [bstep, hsd, hgsrc, hgdst] using ⟨inv1, inv2⟩
        | live c =>
          have hltsrc := getB_live_lt hgsrc
          have hltdst := getB_live_lt hgdst
          have h1 := fun v => viewCount_set s.bufs dst (.live b) v hltdst
          rw [hgdst] at h1
          have hltsrc' : src < (s.bufs.set dst (.live b)).length := by
            simpa using hltsrc
          have h2 := fun v =>
            viewCount_set (s.bufs.set dst (.live b)) src (.live (movedFrom b)) v hltsrc'
          rw [getB_set_ne _ _ _ _ hsd, hgsrc] at h2
          cases hcv : c.valid_ with
          | true =>
            constructor
            · intro v hv
              simp only [bstep] at hv ⊢
              rw [if_neg hsd] at hv ⊢
              simp only [hgsrc, hgdst] at hv ⊢
              rw [NumpyBuffer_destruct_nextView] at hv
              rw [NumpyBuffer_destruct_released_valid s.w hcv v]
              have ha := inv1 v hv
              have hb := h1 v
              have hc := h2 v
              rw [viewHits_valid v hcv] at hb
              rw [viewHits_movedFrom] at hc
              omega
            · intro v hv
              simp only [bstep] at hv ⊢
              rw [if_neg hsd] at hv ⊢
              simp only [hgsrc, hgdst] at hv ⊢
              rw [NumpyBuffer_destruct_nextView] at hv
              rw [NumpyBuffer_destruct_released_valid s.w hcv v]
              have ha := inv2 v hv
              have hb := h1 v
              have hc := h2 v
              rw [viewHits_valid v hcv] at hb
              rw [viewHits_movedFrom] at hc
              have hlow := viewCount_lower s.bufs dst v hltdst
              rw [hgdst, viewHits_valid v hcv] at hlow
              constructor
              · omega
              · omega
          | false =>
            constructor
            · intro v hv
              simp only [bstep] at hv ⊢
              rw [if_neg hsd] at hv ⊢
              simp only [hgsrc, hgdst] at hv ⊢
              rw [NumpyBuffer_destruct_invalid s.w hcv] at hv ⊢
              have ha := inv1 v hv
              have hb := h1 v
              have hc := h2 v
              rw [viewHits_invalid v hcv] at hb
              rw [viewHits_movedFrom] at hc
              omega
            · intro v hv
              simp only [bstep] at hv ⊢
              rw [if_neg hsd] at hv ⊢
              simp only [hgsrc, hgdst] at hv ⊢
              rw [NumpyBuffer_destruct_invalid s.w hcv] at hv ⊢
              have ha := inv2 v hv
              have hb := h1 v
              have hc := h2 v
              rw [viewHits_invalid v hcv] at hb
              rw [viewHits_movedFrom] at hc
              omega
  | destruct i =>
    cases hg : getB s.bufs i with
    | dead => simpa [bstep, hg] using ⟨inv1, inv2⟩
    | live b =>
      have hlt := getB_live_lt hg
      have hset := fun v => viewCount_set s.bufs i .dead v hlt
      rw [hg] at hset
      cases hbv : b.valid_ with
      | true =>
        constructor
        · intro v hv
          simp only [bstep, hg] at hv ⊢
          rw [NumpyBuffer_destruct_nextView] at hv
          rw [NumpyBuffer_destruct_released_valid s.w hbv v]
          have ha := inv1 v hv
          have hs := hset v
          rw [viewHits_valid v hbv] at hs
          rw [show viewHits v BS.dead = 0 from rfl] at hs
          omega
        · intro v hv
          simp only [bstep, hg] at hv ⊢
          rw [NumpyBuffer_destruct_nextView] at hv
          rw [NumpyBuffer_destruct_released_valid s.w hbv v]
          have ha := inv2 v hv
          have hs := hset v
          rw [viewHits_valid v hbv] at hs
          rw [show viewHits v BS.dead = 0 from rfl] at hs
          have hlow := viewCount_lower s.bufs i v hlt
          rw [hg, viewHits_valid v hbv] at hlow
          omega
      | false =>
        constructor
        · intro v hv
          simp only [bstep, hg] at hv ⊢
          rw [NumpyBuffer_destruct_invalid s.w hbv] at hv ⊢
          have ha := inv1 v hv
          have hs := hset v
          rw [viewHits_invalid v hbv] at hs
          rw [show viewHits v BS.dead = 0 from rfl] at hs
          omega
        · intro v hv
          simp only [bstep, hg] at hv ⊢
          rw [NumpyBuffer_destruct_invalid s.w hbv] at hv ⊢
          have ha := inv2 v hv
          have hs := hset v
          rw [viewHits_invalid v hbv] at hs
          rw [show viewHits v BS.dead = 0 from rfl] at hs
          omega

theorem binv_foldl (ops : List BOp) :
    ∀ s : BMState, BInv s → BInv (ops.foldl bstep s) := by
  induction ops with
  | nil => exact fun s h => h
  | cons op rest ih =>
    intro s h
    exact ih (bstep s op) (binv_step h op)

theorem binv_binit (ex : Ptr → Option BufDesc) : BInv (binit ex) :=
  ⟨fun v hv => absurd hv (Nat.not_lt_zero v), fun _ _ => ⟨rfl, rfl⟩⟩

/-- **C8.** Every successfully acquired buffer view is released back to
the exporter exactly once: over every sequence of
construct/move/destruct operations each acquisition is, at every point,
either validly held by exactly one live buffer or already released
exactly once, and once all buffers are destroyed each acquisition has
been released exactly once; the move constructor leaves the source
invalid (so destroying it releases nothing), and move assignment first
releases the target's own valid view and then adopts the source's,
leaving the source invalid. -/
theorem c8_buffer_release_exactly_once :
    (∀ (ex : Ptr → Option BufDesc) (ops : List BOp) (v : Nat),
        v < (brun ex ops).w.nextView →
        (brun ex ops).w.released v + viewCount (brun ex ops).bufs v = 1) ∧
    (∀ (ex : Ptr → Option BufDesc) (ops : List BOp) (v : Nat),
        v < (brun ex ops).w.nextView → allDeadB (brun ex ops).bufs = true →
        (brun ex ops).w.released v = 1) ∧
    (∀ (s : BMState) (i : Nat) (b : NumpyBuffer), getB s.bufs i = .live b →
        getB (bstep s (.moveCtor i)).bufs i = .live (movedFrom b) ∧
        (bstep (bstep s (.moveCtor i)) (.destruct i)).w = (bstep s (.moveCtor i)).w) ∧
    (∀ (s : BMState) (i j : Nat) (b c : NumpyBuffer), i ≠ j →
        getB s.bufs i = .live b → getB s.bufs j = .live c → c.valid_ = true →
        (bstep s (.moveAssign i j)).w = PyBuffer_Release s.w c.view_ ∧
        getB (bstep s (.moveAssign i j)).bufs j = .live b ∧
        getB (bstep s (.moveAssign i j)).bufs i = .live (movedFrom b)) := by
  refine ⟨?_, ?_, ?_, ?_⟩
  · intro ex ops v hv
    simp only [brun] at hv ⊢
    exact (binv_foldl ops (binit ex) (binv_binit ex)).1 v hv
  · intro ex ops v hv hdead
    simp only [brun] at hv hdead ⊢
    have h := (binv_foldl ops (binit ex) (binv_binit ex)).1 v hv
    rw [allDeadB_viewCount _ v hdead] at h
    omega
  · intro s i b hg
    have hlt := getB_live_lt hg
    have hg1 : getB (s.bufs.set i (.live (movedFrom b)) ++ [.live b]) i =
        .live (movedFrom b) := by
      rw [getB, List.getD_append _ _ _ _ (by simpa using hlt)]
      exact getB_set_self _ _ _ (by simpa using hlt)
    refine ⟨by simpa [bstep, hg] using hg1, ?_⟩
    simp only [bstep, hg, hg1]
    exact NumpyBuffer_destruct_invalid s.w rfl
  · intro s i j b c hij hgi hgj hcv
    have hlti := getB_live_lt hgi
    have hltj := getB_live_lt hgj
    refine ⟨?_, ?_, ?_⟩
    · simp only [bstep]
      rw [if_neg hij]
      simp only [hgi, hgj]
      rw [NumpyBuffer.destruct, if_pos hcv]
    · simp only [bstep]
      rw [if_neg hij]
      simp only [hgi, hgj]
      rw [getB_set_ne _ _ _ _ (fun h => hij h.symm)]
      exact getB_set_self _ _ _ (by simpa using hltj)
    · simp only [bstep]
      rw [if_neg hij]
      simp only [hgi, hgj]
      exact getB_set_self _ _ _ (by simpa using hlti)

theorem c8_buffer_release_exactly_once_witness :
    (brun (fun _ => some BufDesc.nullDesc) [BOp.construct 3, BOp.destruct 0]).w.released 0 = 1 :=
  c8_buffer_release_exactly_once.2.1 _ _ 0 (by decide) (by decide)

end Justjit
